import Mathlib

/-!
Verification of the puzzle-solving engine in `src/lib/aiSolver.ts`.

JavaScript strings are modelled as lists of UTF-16 code units (`List Nat`);
for the ASCII data handled here a code unit is just the character code.
`SolverResult.solution` is an `Option`, `none` meaning the object literal
omitted the `solution` key.  The wall-clock field `timeMs` is not modelled.
`Math.random()` is modelled as an injected rational `rn / rd` with
`0 ≤ rn < rd`, and the floating-point products `random * maxAttempts * 0.7`
are modelled with exact arithmetic (for the magnitudes reachable here, the
powers of two involved are exactly representable as doubles).
JavaScript `number` values are modelled as integers (`Int`) together with
the IEEE-754 double rounding `roundDbl` applied where the source computes:
at `parseInt` results, at the Fibonacci sum, and at the next-prime loop's
increment, so behaviour at and above 2^53 (rounded parses, rounded sums,
the non-terminating `candidate++` fixpoint) is captured.
-/

namespace AiBtcSolver

/-- Result shape of `SolverResult` in aiSolver.ts (`timeMs` omitted):
`success`, optional `solution`, `attempts`, `method`. -/
structure SolverResult where
  success : Bool
  solution : Option (List Nat)
  attempts : Nat
  method : List Nat
deriving DecidableEq, Repr

/-- The fields of `CryptoPuzzle` that the solver reads: `type`, `challenge`,
optional `solution`, optional `bits`.  (The catalog's other fields — id, name,
difficulty, hint, … — are never read by the solver.) -/
structure CryptoPuzzle where
  type : List Nat
  challenge : List Nat
  solution : Option (List Nat)
  bits : Option Nat
deriving DecidableEq, Repr

/-! ### Character classes -/

/-- JavaScript `\s` (also the `TrimString` set): ASCII whitespace, line
terminators, and the Unicode space separators together with U+FEFF. -/
def isJsWs (c : Nat) : Bool :=
  decide (c = 9 ∨ c = 10 ∨ c = 11 ∨ c = 12 ∨ c = 13 ∨ c = 32 ∨ c = 160 ∨
    c = 5760 ∨ (8192 ≤ c ∧ c ≤ 8202) ∨ c = 8232 ∨ c = 8233 ∨ c = 8239 ∨
    c = 8287 ∨ c = 12288 ∨ c = 65279)

/-- ASCII whitespace as used by the forgiving-base64 decode inside `atob`:
TAB, LF, FF, CR, SPACE. -/
def isAsciiWs (c : Nat) : Bool :=
  decide (c = 9 ∨ c = 10 ∨ c = 12 ∨ c = 13 ∨ c = 32)

/-- JavaScript regular-expression line terminators (which `.` does not match). -/
def isLineTerm (c : Nat) : Bool :=
  decide (c = 10 ∨ c = 13 ∨ c = 8232 ∨ c = 8233)

/-- Digit value of a code unit in bases up to 36 (case-insensitive), as used
by `parseInt`. -/
def digitVal (c : Nat) : Option Nat :=
  if 48 ≤ c ∧ c ≤ 57 then some (c - 48)
  else if 65 ≤ c ∧ c ≤ 90 then some (c - 55)
  else if 97 ≤ c ∧ c ≤ 122 then some (c - 87)
  else none

/-- Hexadecimal digit test (0-9, A-F, a-f). -/
def isHexDigit (c : Nat) : Bool :=
  decide ((48 ≤ c ∧ c ≤ 57) ∨ (65 ≤ c ∧ c ≤ 70) ∨ (97 ≤ c ∧ c ≤ 102))

/-- Value of a hexadecimal digit (0 for non-digits). -/
def hexVal (c : Nat) : Nat := (digitVal c).getD 0

/-! ### Double-precision rounding of integers

JavaScript numbers are IEEE-754 doubles: an integer is representable only up
to 53 significand bits, and `parseInt`, addition and `++` all round to the
nearest representable value, ties to the even significand.  `roundDbl` is
that correctly-rounded conversion for integers (finite range; the overflow
to Infinity near 2^1024 is far beyond every value the claims reach and is
not modelled). -/

/-- Number of binary digits of `n` (0 for 0), fuel-driven so that it reduces
definitionally; fuel `n` always suffices since the argument halves. -/
def natBitsAux : Nat → Nat → Nat
  | 0, _ => 0
  | f + 1, n => if n = 0 then 0 else natBitsAux f (n / 2) + 1

/-- Number of binary digits of `n`. -/
def natBits (n : Nat) : Nat := natBitsAux n n

/-- Nearest double-representable natural number, ties to even significand:
identity up to `2^53`, above that a rounding to the grid of spacing
`2^(bits - 53)`. -/
def roundDblNat (n : Nat) : Nat :=
  if n ≤ 2 ^ 53 then n
  else
    let k := natBits n - 53
    let q := n / 2 ^ k
    let r := n % 2 ^ k
    let half := 2 ^ (k - 1)
    if r < half then q * 2 ^ k
    else if half < r then (q + 1) * 2 ^ k
    else if q % 2 = 0 then q * 2 ^ k else (q + 1) * 2 ^ k

/-- Nearest double-representable integer (IEEE rounding is symmetric in the
sign). -/
def roundDbl (x : Int) : Int :=
  if 0 ≤ x then (roundDblNat x.toNat : Int) else -(roundDblNat (-x).toNat : Int)

/-- `x++` / `x + 1` on an integer-valued double: exact below `2^53`, a no-op
at `2^53` (the tie `2^53 + 1` rounds back down to the even significand). -/
def jsInc (x : Int) : Int := roundDbl (x + 1)

/-! ### JavaScript `parseInt` -/

/-- Longest prefix of digits valid in radix `r`, or `none` (NaN) if empty. -/
def parseIntDigits (r : Nat) (l : List Nat) : Option Nat :=
  let ds := l.takeWhile (fun c => match digitVal c with
    | some v => decide (v < r)
    | none => false)
  if ds.isEmpty then none
  else some (ds.foldl (fun a c => a * r + (digitVal c).getD 0) 0)

/-- Strip one leading sign, returning the sign and the rest. -/
def stripSign (l : List Nat) : Int × List Nat :=
  if l.headD 0 = 43 then (1, l.tail)
  else if l.headD 0 = 45 then (-1, l.tail)
  else (1, l)

/-- Whether the list starts with `0x` or `0X`. -/
def hasHexMark (l : List Nat) : Bool :=
  decide (l.headD 0 = 48 ∧ (l.tail.headD 0 = 120 ∨ l.tail.headD 0 = 88)) &&
    decide (2 ≤ l.length)

/-- Drop a leading `0x` / `0X`. -/
def stripHexMark (l : List Nat) : List Nat :=
  if hasHexMark l then l.tail.tail else l

/-- Parse after sign/prefix handling: `none` is NaN.  The exact digit value
is converted to a double, i.e. rounded to the nearest representable
integer. -/
def parseSigned (r : Nat) (sgn : Int) (l : List Nat) : Option Int :=
  match parseIntDigits r l with
  | none => none
  | some v => some (roundDbl (sgn * (v : Int)))

/-- JavaScript `parseInt(s, radix)`.  `radix = none` models a call without a
radix argument (base 10 unless the digits start with `0x`, which switches to
base 16); `some 16` also strips a `0x` mark.  Returns `none` for NaN. -/
def parseIntJS (radix : Option Nat) (s : List Nat) : Option Int :=
  let l0 := s.dropWhile isJsWs
  let sl := stripSign l0
  match radix with
  | some 16 => parseSigned 16 sl.1 (stripHexMark sl.2)
  | some r => parseSigned r sl.1 sl.2
  | none =>
    if hasHexMark sl.2 then parseSigned 16 sl.1 (stripHexMark sl.2)
    else parseSigned 10 sl.1 sl.2

/-- `String.fromCharCode(v)`: `ToUint16` of the numeric argument, with the
NaN case (`none`) mapping to 0. -/
def jsFromCharCode (v : Option Int) : Nat := ((v.getD 0).emod 65536).toNat

/-! ### Codec library -/

/-- Base64 alphabet value of a code unit. -/
def b64Val (c : Nat) : Option Nat :=
  if 65 ≤ c ∧ c ≤ 90 then some (c - 65)
  else if 97 ≤ c ∧ c ≤ 122 then some (c - 71)
  else if 48 ≤ c ∧ c ≤ 57 then some (c + 4)
  else if c = 43 then some 62
  else if c = 47 then some 63
  else none

/-- Drop up to two trailing `=` padding characters. -/
def dropPad (l : List Nat) : List Nat :=
  match l.reverse with
  | 61 :: 61 :: r => r.reverse
  | 61 :: r => r.reverse
  | _ => l

/-- Reassemble 6-bit values into bytes, discarding trailing leftover bits,
as the forgiving-base64 decode does. -/
def b64Bytes : List Nat → List Nat
  | a :: b :: c :: d :: rest =>
    (a * 4 + b / 16) :: ((b % 16) * 16 + c / 4) :: ((c % 4) * 64 + d) ::
      b64Bytes rest
  | [a, b] => [a * 4 + b / 16]
  | [a, b, c] => [a * 4 + b / 16, (b % 16) * 16 + c / 4]
  | _ => []

/-- `decodeBase64` from aiSolver.ts: `atob` (WHATWG forgiving-base64) with the
thrown error caught and turned into the empty string. -/
def decodeBase64 (input : List Nat) : List Nat :=
  let s := input.filter (fun c => !(isAsciiWs c))
  let s := if s.length % 4 = 0 then dropPad s else s
  if s.length % 4 = 1 then []
  else match s.mapM b64Val with
    | none => []
    | some vals => b64Bytes vals

/-- Split a list into chunks of two (a final odd chunk has one element),
modelling the `substr(i, 2)` stride in `hexToAscii`. -/
def chunks2 : List Nat → List (List Nat)
  | [] => []
  | a :: rest =>
    match rest with
    | [] => [[a]]
    | b :: rest2 => [a, b] :: chunks2 rest2

/-- `hexToAscii` from aiSolver.ts: strip whitespace, then map every 2-char
chunk through `parseInt(chunk, 16)` and `String.fromCharCode`.  Nothing in
the body can throw, so the `catch` branch is dead and the function is total. -/
def hexToAscii (input : List Nat) : List Nat :=
  let clean := input.filter (fun c => !(isJsWs c))
  (chunks2 clean).map (fun ch => jsFromCharCode (parseIntJS (some 16) ch))

/-- One character of ROT13: letters rotate by 13 inside their case band,
everything else passes through. -/
def rot13Char (c : Nat) : Nat :=
  if 65 ≤ c ∧ c ≤ 90 then (c - 65 + 13) % 26 + 65
  else if 97 ≤ c ∧ c ≤ 122 then (c - 97 + 13) % 26 + 97
  else c

/-- `decodeROT13` from aiSolver.ts. -/
def decodeROT13 (input : List Nat) : List Nat := input.map rot13Char

/-- `String.prototype.split(sep)` for a one-character separator:
the empty string yields `[[]]`. -/
def splitOnChar (sep : Nat) : List Nat → List (List Nat)
  | [] => [[]]
  | c :: rest =>
    let r := splitOnChar sep rest
    if c = sep then [] :: r
    else match r with
      | [] => [[c]]
      | h :: t => (c :: h) :: t

/-- `binaryToAscii` from aiSolver.ts: split on single spaces, parse each token
with `parseInt(token, 2)`, map through `String.fromCharCode`. -/
def binaryToAscii (input : List Nat) : List Nat :=
  (splitOnChar 32 input).map (fun tok => jsFromCharCode (parseIntJS (some 2) tok))

/-- Chunking by the regex `/.{1,2}/g`: greedy runs of one or two characters,
where `.` skips line terminators. -/
def xorChunks : List Nat → List (List Nat)
  | [] => []
  | c :: rest =>
    if isLineTerm c then xorChunks rest
    else match rest with
      | [] => [[c]]
      | d :: rest2 =>
        if isLineTerm d then [c] :: xorChunks rest2
        else [c, d] :: xorChunks rest2

/-- `decodeXOR` from aiSolver.ts: hex chunks XORed with the cyclically
repeating key bytes.  `parseInt` NaN becomes 0 under ToInt32, and
`String.fromCharCode` keeps the low 16 bits of the 32-bit XOR. -/
def decodeXOR (hexInput : List Nat) (key : List Nat) : List Nat :=
  (xorChunks hexInput).enum.map (fun p =>
    Nat.xor (jsFromCharCode (parseIntJS (some 16) p.2))
      (key.getD (p.1 % key.length) 0))

/-! ### String constants from aiSolver.ts (as code-unit lists) -/

/-- codes of "Base64" -/
def nmBase64 : List Nat := [66, 97, 115, 101, 54, 52]

/-- codes of "Hex to ASCII" -/
def nmHexName : List Nat := [72, 101, 120, 32, 116, 111, 32, 65, 83, 67, 73, 73]

/-- codes of "ROT13" -/
def nmROT13 : List Nat := [82, 79, 84, 49, 51]

/-- codes of "Binary to ASCII" -/
def nmBinaryName : List Nat := [66, 105, 110, 97, 114, 121, 32, 116, 111, 32, 65, 83, 67, 73, 73]

/-- codes of "XOR with KEY" -/
def nmXORName : List Nat := [88, 79, 82, 32, 119, 105, 116, 104, 32, 75, 69, 89]

/-- codes of "KEY", the default XOR key -/
def keyKEY : List Nat := [75, 69, 89]

/-- codes of "1, 1, 2, 3, 5, 8" (the Fibonacci signature) -/
def fibSig : List Nat := [49, 44, 32, 49, 44, 32, 50, 44, 32, 51, 44, 32, 53, 44, 32, 56]

/-- codes of "2, 3, 5, 7, 11" (the prime signature) -/
def primeSig : List Nat := [50, 44, 32, 51, 44, 32, 53, 44, 32, 55, 44, 32, 49, 49]

/-- codes of "Fibonacci sequence detection" -/
def nmFib : List Nat := [70, 105, 98, 111, 110, 97, 99, 99, 105, 32, 115, 101, 113, 117, 101, 110, 99, 101, 32, 100, 101, 116, 101, 99, 116, 105, 111, 110]

/-- codes of "Prime number sequence detection" -/
def nmPrime : List Nat := [80, 114, 105, 109, 101, 32, 110, 117, 109, 98, 101, 114, 32, 115, 101, 113, 117, 101, 110, 99, 101, 32, 100, 101, 116, 101, 99, 116, 105, 111, 110]

/-- codes of "Binary to ASCII conversion" -/
def nmBinConv : List Nat := [66, 105, 110, 97, 114, 121, 32, 116, 111, 32, 65, 83, 67, 73, 73, 32, 99, 111, 110, 118, 101, 114, 115, 105, 111, 110]

/-- codes of "Dictionary attack with common inputs" -/
def nmDictFound : List Nat := [68, 105, 99, 116, 105, 111, 110, 97, 114, 121, 32, 97, 116, 116, 97, 99, 107, 32, 119, 105, 116, 104, 32, 99, 111, 109, 109, 111, 110, 32, 105, 110, 112, 117, 116, 115]

/-- codes of "Dictionary attack attempted" -/
def nmDictFail : List Nat := [68, 105, 99, 116, 105, 111, 110, 97, 114, 121, 32, 97, 116, 116, 97, 99, 107, 32, 97, 116, 116, 101, 109, 112, 116, 101, 100]

/-- codes of "Unknown puzzle type" -/
def nmUnknown : List Nat := [85, 110, 107, 110, 111, 119, 110, 32, 112, 117, 122, 122, 108, 101, 32, 116, 121, 112, 101]

/-- codes of "Brute force (2^" -/
def msgInfeasA : List Nat := [66, 114, 117, 116, 101, 32, 102, 111, 114, 99, 101, 32, 40, 50, 94]

/-- codes of " keys) - computationally infeasible" -/
def msgInfeasB : List Nat := [32, 107, 101, 121, 115, 41, 32, 45, 32, 99, 111, 109, 112, 117, 116, 97, 116, 105, 111, 110, 97, 108, 108, 121, 32, 105, 110, 102, 101, 97, 115, 105, 98, 108, 101]

/-- codes of "Brute force key search (2^" -/
def msgSearchA : List Nat := [66, 114, 117, 116, 101, 32, 102, 111, 114, 99, 101, 32, 107, 101, 121, 32, 115, 101, 97, 114, 99, 104, 32, 40, 50, 94]

/-- codes of " = " -/
def msgSearchB : List Nat := [32, 61, 32]

/-- codes of " possible keys)" -/
def msgSearchC : List Nat := [32, 112, 111, 115, 115, 105, 98, 108, 101, 32, 107, 101, 121, 115, 41]

/-- codes of "bitcoin-address" -/
def tagBitcoin : List Nat := [98, 105, 116, 99, 111, 105, 110, 45, 97, 100, 100, 114, 101, 115, 115]

/-- codes of "hash-preimage" -/
def tagHash : List Nat := [104, 97, 115, 104, 45, 112, 114, 101, 105, 109, 97, 103, 101]

/-- codes of "cipher-decode" -/
def tagCipher : List Nat := [99, 105, 112, 104, 101, 114, 45, 100, 101, 99, 111, 100, 101]

/-- codes of "pattern-analysis" -/
def tagPattern : List Nat := [112, 97, 116, 116, 101, 114, 110, 45, 97, 110, 97, 108, 121, 115, 105, 115]

/-- codes of "private-key-recovery" -/
def tagPKR : List Nat := [112, 114, 105, 118, 97, 116, 101, 45, 107, 101, 121, 45, 114, 101, 99, 111, 118, 101, 114, 121]

/-- The `commonInputs` dictionary of `solveHashPuzzle`:
"", "foo", "bar", "test", "password", "1", "2", "3", "bitcoin", "satoshi",
"hello", "world". -/
def commonInputs : List (List Nat) := [[], [102, 111, 111], [98, 97, 114], [116, 101, 115, 116], [112, 97, 115, 115, 119, 111, 114, 100], [49], [50], [51], [98, 105, 116, 99, 111, 105, 110], [115, 97, 116, 111, 115, 104, 105], [104, 101, 108, 108, 111], [119, 111, 114, 108, 100]]

/-! ### Number rendering (JavaScript `Number.prototype.toString` for the
integers reachable here) -/

/-- Digit accumulator for decimal rendering, fuel-driven so that it reduces
definitionally (the fuel `n` always suffices since `n / 10 < n`). -/
def natCodesAux : Nat → Nat → List Nat → List Nat
  | 0, n, acc => (48 + n % 10) :: acc
  | f + 1, n, acc =>
    if n < 10 then (48 + n) :: acc
    else natCodesAux f (n / 10) ((48 + n % 10) :: acc)

/-- Decimal code units of a natural number. -/
def natCodes (n : Nat) : List Nat := natCodesAux n n []

/-- Decimal code units of an integer (`-` prefix for negatives), matching
`Number.prototype.toString` on exact integers. -/
def intCodes (i : Int) : List Nat :=
  if i < 0 then 45 :: natCodes (-i).toNat else natCodes i.toNat

/-! ### Sequence helpers from aiSolver.ts -/

/-- `sequence.split(',').map(s => parseInt(s.trim())).filter(n => !isNaN(n))`. -/
def parseNumbers (sequence : List Nat) : List Int :=
  (splitOnChar 44 sequence).filterMap (fun s =>
    parseIntJS none (((s.dropWhile isJsWs).reverse.dropWhile isJsWs).reverse))

/-- `solveFibonacci` from aiSolver.ts: empty string unless at least two
numbers parsed, else the decimal rendering of the sum of the last two.  The
sum is a double addition: the exact sum of the two parsed doubles, rounded. -/
def solveFibonacci (sequence : List Nat) : List Nat :=
  let numbers := parseNumbers sequence
  if numbers.length < 2 then []
  else intCodes (roundDbl (numbers.getD (numbers.length - 2) 0 +
    numbers.getD (numbers.length - 1) 0))

/-- `isPrime` from aiSolver.ts: trial division by every `i` with
`2 ≤ i ≤ Math.sqrt(n)` (equivalently `i * i ≤ n`); numbers below 2 are not
prime.  The bound `i < n.toNat` is redundant (any such divisor is below `n`)
and only makes the quantifier decidable. -/
def isPrimeJS (n : Int) : Bool :=
  if n < 2 then false
  else decide (∀ i : Nat, i < n.toNat → 2 ≤ i → i * i ≤ n.toNat →
    ¬ n.toNat % i = 0)

/-- An `isPrimeJS` value exists above any starting point among the exact
integers (infinitude of primes); used to define the loop's result value. -/
theorem isPrimeJS_of_prime (p : Nat) (hprime : p.Prime) :
    isPrimeJS (p : Int) = true := by
  unfold isPrimeJS
  rw [if_neg (by exact_mod_cast not_lt.mpr hprime.two_le)]
  rw [decide_eq_true_iff]
  intro i _ h2i hsq hmod
  have hdvd : i ∣ p := by
    have h5 : (i ∣ (p : Int).toNat) := Nat.dvd_iff_mod_eq_zero.mpr hmod
    simpa using h5
  rcases hprime.eq_one_or_self_of_dvd i (by simpa using hdvd) with h | h
  · omega
  · subst h
    have : i * 2 ≤ i * i := Nat.mul_le_mul_left i h2i
    simp only [Int.toNat_natCast] at hsq
    omega

theorem existsNextPrime (current : Int) :
    ∃ k : Nat, isPrimeJS (current + 1 + (k : Int)) = true := by
  obtain ⟨p, hp, hprime⟩ := Nat.exists_infinite_primes ((current + 1).toNat + 2)
  have h1 : current + 1 ≤ (p : Int) := by
    have h2 : current + 1 ≤ ((current + 1).toNat : Int) := Int.self_le_toNat _
    have h3 : ((current + 1).toNat : Int) ≤ (p : Int) := by exact_mod_cast Nat.le_of_add_right_le hp
    omega
  refine ⟨((p : Int) - (current + 1)).toNat, ?_⟩
  have h4 : current + 1 + (((p : Int) - (current + 1)).toNat : Int) = (p : Int) := by
    rw [Int.toNat_of_nonneg (by omega)]; omega
  rw [h4]
  exact isPrimeJS_of_prime p hprime

/-- The body of `getNextPrime`'s `while (!isPrime(candidate)) candidate++`
loop, stepping with the double increment `jsInc` under explicit fuel:
`none` means the loop has not exited within `fuel` iterations. -/
def nextPrimeAux : Nat → Int → Option Int
  | 0, _ => none
  | fuel + 1, cand =>
    if isPrimeJS cand then some cand else nextPrimeAux fuel (jsInc cand)

/-- The `getNextPrime` loop, started as in the source at
`candidate = current + 1` (a double addition), terminates. -/
def nextPrimeTerminates (current : Int) : Prop :=
  ∃ fuel, (nextPrimeAux fuel (jsInc current)).isSome = true

/-- The result value of `getNextPrime` from aiSolver.ts: the least
`isPrimeJS` value above `current` among exact integers.  The real loop
returns exactly this value whenever it terminates (`nextPrimeAux` below is
proved to reach it for starts up to `2^52`); once its candidate reaches
`2^53` the real loop never exits, because `candidate++` rounds back
(`jsInc`) and `2^53` is composite — on such starts this total result model
diverges from the hanging program, which the C9 analysis records. -/
def getNextPrime (current : Int) : Int :=
  current + 1 + (Nat.find (existsNextPrime current) : Int)

/-- `solvePrimeSequence` from aiSolver.ts, using the loop's result value;
faithful on the inputs where the loop terminates (see `nextPrimeAux`). -/
def solvePrimeSequence (sequence : List Nat) : List Nat :=
  let numbers := parseNumbers sequence
  if numbers.isEmpty then []
  else intCodes (getNextPrime (numbers.getD (numbers.length - 1) 0))

/-! ### The five strategies and the dispatcher -/

/-- The acceptance gate of the decode cascade:
`result && result.length > 0 && /^[\x20-\x7E]+$/.test(result)`. -/
def accept (s : List Nat) : Bool :=
  decide (s ≠ []) && s.all (fun c => decide (32 ≤ c ∧ c ≤ 126))

/-- The `decoders` array of `solveCipherPuzzle`, in source order, with each
decoder already applied to the challenge. -/
def decoderAttempts (ch : List Nat) : List (List Nat × List Nat) :=
  [(nmBase64, decodeBase64 ch), (nmHexName, hexToAscii ch),
   (nmROT13, decodeROT13 ch), (nmBinaryName, binaryToAscii ch),
   (nmXORName, decodeXOR ch keyKEY)]

/-- The `for (const decoder of decoders)` loop: returns the final
`(attempts, solution, method)` triple.  `attempts` is incremented for every
decoder tried, including the accepted one. -/
def tryDecoders : List (List Nat × List Nat) → Nat → Nat × List Nat × List Nat
  | [], att => (att, [], [])
  | d :: rest, att =>
    if accept d.2 then (att + 1, d.2, d.1) else tryDecoders rest (att + 1)

/-- The result assembly shared by `solveCipherPuzzle` and
`solvePatternPuzzle`: `{ success: solution.length > 0, solution, attempts,
method }` from an `(attempts, solution, method)` triple. -/
def gateResult (t : Nat × List Nat × List Nat) : SolverResult :=
  ⟨decide (t.2.1 ≠ []), some t.2.1, t.1, t.2.2⟩

/-- `solveCipherPuzzle` from aiSolver.ts. -/
def solveCipherPuzzle (p : CryptoPuzzle) : SolverResult :=
  gateResult (tryDecoders (decoderAttempts p.challenge) 0)

/-- Substring containment, `String.prototype.includes`. -/
def containsSub (needle : List Nat) : List Nat → Bool
  | [] => needle.isEmpty
  | h :: t => needle.isPrefixOf (h :: t) || containsSub needle t

/-- The regex `/^[01\s]+$/` of the binary-pattern branch. -/
def isBinaryish (ch : List Nat) : Bool :=
  decide (ch ≠ []) && ch.all (fun c => decide (c = 48 ∨ c = 49) || isJsWs c)

/-- `solvePatternPuzzle` from aiSolver.ts: Fibonacci signature, then prime
signature, then all-binary text; `attempts` stays 0 when nothing matches. -/
def solvePatternPuzzle (p : CryptoPuzzle) : SolverResult :=
  let ch := p.challenge
  gateResult
    (if containsSub fibSig ch then (1, solveFibonacci ch, nmFib)
     else if containsSub primeSig ch then (1, solvePrimeSequence ch, nmPrime)
     else if isBinaryish ch then (1, binaryToAscii ch, nmBinConv)
     else (0, [], []))

/-- The `for (const input of commonInputs)` loop of `solveHashPuzzle`:
a candidate matches when the puzzle's recorded solution is defined and equal
to it. -/
def hashLoop : List (List Nat) → Nat → Option (List Nat) → SolverResult
  | [], att, _ => ⟨false, none, att, nmDictFail⟩
  | i :: rest, att, tgt =>
    if tgt = some i then ⟨true, some i, att + 1, nmDictFound⟩
    else hashLoop rest (att + 1) tgt

/-- `solveHashPuzzle` from aiSolver.ts. -/
def solveHashPuzzle (p : CryptoPuzzle) : SolverResult :=
  hashLoop commonInputs 0 p.solution

/-- `solveBitcoinPuzzle` from aiSolver.ts, with `Math.random()` injected as
`rn / rd` (`0 ≤ rn < rd`): for `bits > 20` an immediate infeasibility
failure with `attempts = 2^bits`; otherwise
`attempts = Math.floor(random * 2^bits * 0.7) + 1`, success iff `bits ≤ 15`,
and `solution` copied from the descriptor unconditionally. -/
def solveBitcoinPuzzle (p : CryptoPuzzle) (rn rd : Nat) : SolverResult :=
  let bits := p.bits.getD 0
  let maxAttempts := 2 ^ bits
  if 20 < bits then
    ⟨false, none, maxAttempts, msgInfeasA ++ natCodes bits ++ msgInfeasB⟩
  else
    ⟨decide (bits ≤ 15), p.solution, rn * 7 * maxAttempts / (10 * rd) + 1,
      msgSearchA ++ natCodes bits ++ msgSearchB ++ natCodes maxAttempts ++ msgSearchC⟩

/-- `solvePuzzleWithAI` from aiSolver.ts: route by `puzzle.type` (the caller's
artificial delay is timing-only and not modelled). -/
def solvePuzzleWithAI (p : CryptoPuzzle) (rn rd : Nat) : SolverResult :=
  if p.type = tagCipher then solveCipherPuzzle p
  else if p.type = tagPattern then solvePatternPuzzle p
  else if p.type = tagHash then solveHashPuzzle p
  else if p.type = tagBitcoin then solveBitcoinPuzzle p rn rd
  else if p.type = tagPKR then solveBitcoinPuzzle p rn rd
  else ⟨false, none, 0, nmUnknown⟩

/-- Whether a category routes to the bounded keyspace strategy. -/
def keyspaceType (t : List Nat) : Bool :=
  decide (t = tagBitcoin) || decide (t = tagPKR)

/-! ### Spec-side definitions used for comparison -/

/-- Chunks of two that are valid hexadecimal digit pairs (an odd trailing
chunk fails the length-2 test, so this is "even length and all pairs hex"). -/
def validHexPairs (l : List Nat) : Bool :=
  (chunks2 l).all (fun c => decide (c.length = 2) && c.all isHexDigit)

/-- Byte value of a valid hexadecimal pair (0 on other shapes). -/
def hexPairByte : List Nat → Nat
  | [a, b] => 16 * (digitVal a).getD 0 + (digitVal b).getD 0
  | _ => 0

/-- Definition following the spec's words for the Hex→ASCII codec, for
comparison with the implementation: strips whitespace; fails with
MalformedInput (here `none`) if the length is odd or any pair is not a valid
hex digit pair; otherwise maps each byte pair to its character. -/
def hexToAsciiSpec (input : List Nat) : Option (List Nat) :=
  let clean := input.filter (fun c => !(isJsWs c))
  if validHexPairs clean then some ((chunks2 clean).map hexPairByte) else none

/-- codes of "unrecognized category", the strategy label the spec prescribes
for the dispatcher's default branch. -/
def specUnrecognized : List Nat := [117, 110, 114, 101, 99, 111, 103, 110, 105, 122, 101, 100, 32, 99, 97, 116, 101, 103, 111, 114, 121]

/-- First index of a candidate in a list (length of the list if absent). -/
def idxOf (t : List Nat) : List (List Nat) → Nat
  | [] => 0
  | x :: rest => if x = t then 0 else idxOf t rest + 1

/-! ### Helper lemmas -/

theorem accept_ne_nil {s : List Nat} (h : accept s = true) : s ≠ [] := by
  unfold accept at h
  rw [Bool.and_eq_true] at h
  exact of_decide_eq_true h.1

theorem rot13Char_printable (c : Nat) (h1 : 32 ≤ c) (h2 : c ≤ 126) :
    32 ≤ rot13Char c ∧ rot13Char c ≤ 126 := by
  unfold rot13Char
  split_ifs with ha hb
  · have := Nat.mod_lt (c - 65 + 13) (y := 26) (by norm_num)
    omega
  · have := Nat.mod_lt (c - 97 + 13) (y := 26) (by norm_num)
    omega
  · exact ⟨h1, h2⟩

theorem accept_rot13 (ch : List Nat) (hne : ch ≠ [])
    (hpr : ∀ c ∈ ch, 32 ≤ c ∧ c ≤ 126) : accept (decodeROT13 ch) = true := by
  unfold accept decodeROT13
  rw [Bool.and_eq_true]
  refine ⟨decide_eq_true ?_, ?_⟩
  · exact fun h => hne (List.map_eq_nil_iff.mp h)
  · rw [List.all_eq_true]
    intro x hx
    rw [List.mem_map] at hx
    obtain ⟨c, hc, rfl⟩ := hx
    exact decide_eq_true (rot13Char_printable c (hpr c hc).1 (hpr c hc).2)

theorem tryDecoders_all : ∀ (l : List (List Nat × List Nat)) (att : Nat),
    (∀ q ∈ l, accept q.2 = false) →
    tryDecoders l att = (att + l.length, [], [])
  | [], att, _ => by simp [tryDecoders]
  | q :: rest, att, h => by
    have hq : accept q.2 = false := h q (by simp)
    have ih := tryDecoders_all rest (att + 1) (fun x hx => h x (by simp [hx]))
    simp only [tryDecoders, hq, Bool.false_eq_true, if_false, ih,
      List.length_cons]
    refine congrArg (fun n => (n, ([] : List Nat), ([] : List Nat))) ?_
    omega

theorem tryDecoders_accept : ∀ (l₁ : List (List Nat × List Nat))
    (d : List Nat × List Nat) (l₂ : List (List Nat × List Nat)) (att : Nat),
    (∀ q ∈ l₁, accept q.2 = false) → accept d.2 = true →
    tryDecoders (l₁ ++ d :: l₂) att = (att + l₁.length + 1, d.2, d.1)
  | [], d, l₂, att, _, h2 => by simp [tryDecoders, h2]
  | q :: rest, d, l₂, att, h1, h2 => by
    have hq : accept q.2 = false := h1 q (by simp)
    have ih := tryDecoders_accept rest d l₂ (att + 1)
      (fun x hx => h1 x (by simp [hx])) h2
    simp only [List.cons_append, tryDecoders, hq, Bool.false_eq_true, if_false,
      List.append_eq, ih, List.length_cons]
    refine congrArg (fun n => (n, d.2, d.1)) ?_
    omega

theorem tryDecoders_att_le : ∀ (l : List (List Nat × List Nat)) (att : Nat),
    (tryDecoders l att).1 ≤ att + l.length
  | [], att => by simp [tryDecoders]
  | q :: rest, att => by
    simp only [tryDecoders, List.length_cons]
    split
    · show att + 1 ≤ att + (rest.length + 1)
      omega
    · have := tryDecoders_att_le rest (att + 1)
      omega

theorem hashLoop_found : ∀ (l : List (List Nat)) (att : Nat) (t : List Nat),
    t ∈ l →
    hashLoop l att (some t) = ⟨true, some t, att + idxOf t l + 1, nmDictFound⟩
  | [], _, _, h => absurd h (List.not_mem_nil _)
  | x :: rest, att, t, h => by
    by_cases hx : x = t
    · subst hx
      simp [hashLoop, idxOf]
    · have ht : t ∈ rest := by
        rcases List.mem_cons.mp h with h' | h'
        · exact absurd h'.symm hx
        · exact h'
      have ih := hashLoop_found rest (att + 1) t ht
      have hne : (some t : Option (List Nat)) ≠ some x := by
        simp only [ne_eq, Option.some.injEq]
        exact fun h' => hx h'.symm
      simp only [hashLoop, idxOf, if_neg hx, if_neg hne, ih]
      refine congrArg (fun n => SolverResult.mk true (some t) n nmDictFound) ?_
      omega

theorem hashLoop_notFound : ∀ (l : List (List Nat)) (att : Nat)
    (tgt : Option (List Nat)), (∀ x ∈ l, tgt ≠ some x) →
    hashLoop l att tgt = ⟨false, none, att + l.length, nmDictFail⟩
  | [], att, tgt, _ => by simp [hashLoop]
  | x :: rest, att, tgt, h => by
    have hx : tgt ≠ some x := h x (by simp)
    have ih := hashLoop_notFound rest (att + 1) tgt (fun y hy => h y (by simp [hy]))
    simp only [hashLoop, if_neg hx, ih, List.length_cons]
    refine congrArg (fun n => SolverResult.mk false none n nmDictFail) ?_
    omega

theorem hashLoop_shape : ∀ (l : List (List Nat)) (att : Nat)
    (tgt : Option (List Nat)),
    ((hashLoop l att tgt).success = true → ∃ s, (hashLoop l att tgt).solution = some s)
    ∧ ((hashLoop l att tgt).success = false → (hashLoop l att tgt).solution = none)
  | [], att, tgt => by simp [hashLoop]
  | x :: rest, att, tgt => by
    by_cases hx : tgt = some x
    · simp [hashLoop, hx]
    · simpa [hashLoop, hx] using hashLoop_shape rest (att + 1) tgt

theorem hashLoop_att_le : ∀ (l : List (List Nat)) (att : Nat)
    (tgt : Option (List Nat)), (hashLoop l att tgt).attempts ≤ att + l.length
  | [], att, tgt => by simp [hashLoop]
  | x :: rest, att, tgt => by
    simp only [hashLoop, List.length_cons]
    split
    · show att + 1 ≤ att + (rest.length + 1)
      omega
    · have := hashLoop_att_le rest (att + 1) tgt
      omega

theorem natCodesAux_ne_nil : ∀ (f n : Nat) (acc : List Nat),
    natCodesAux f n acc ≠ []
  | 0, n, acc => by simp [natCodesAux]
  | f + 1, n, acc => by
    unfold natCodesAux
    split
    · simp
    · exact natCodesAux_ne_nil f _ _

theorem intCodes_ne_nil (i : Int) : intCodes i ≠ [] := by
  unfold intCodes natCodes
  split
  · simp
  · exact natCodesAux_ne_nil _ _ _

theorem splitOnChar_ne_nil : ∀ (sep : Nat) (l : List Nat),
    splitOnChar sep l ≠ []
  | _, [] => by simp [splitOnChar]
  | sep, c :: rest => by
    simp only [splitOnChar]
    split
    · simp
    · split <;> simp

theorem binaryToAscii_ne_nil (input : List Nat) : binaryToAscii input ≠ [] := by
  unfold binaryToAscii
  intro h
  exact splitOnChar_ne_nil 32 input (List.map_eq_nil_iff.mp h)

theorem chunks2_length : ∀ l : List Nat, (chunks2 l).length = (l.length + 1) / 2
  | [] => rfl
  | [_] => by norm_num [chunks2]
  | _ :: _ :: rest => by
    have ih := chunks2_length rest
    simp only [chunks2, List.length_cons, ih]
    omega

theorem randAttempts_le {rn rd b : Nat} (h : rn < rd) :
    rn * 7 * 2 ^ b / (10 * rd) + 1 ≤ 2 ^ b := by
  have hp : 0 < 2 ^ b := Nat.pos_pow_of_pos b (by norm_num)
  have h1 : rn * 7 * 2 ^ b < 2 ^ b * (10 * rd) := by
    have h2 : rn * 7 < 10 * rd := by omega
    calc rn * 7 * 2 ^ b = 2 ^ b * (rn * 7) := by ring
    _ < 2 ^ b * (10 * rd) := (Nat.mul_lt_mul_left hp).mpr h2
  have h3 : rn * 7 * 2 ^ b / (10 * rd) < 2 ^ b :=
    (Nat.div_lt_iff_lt_mul (by omega)).mpr h1
  omega

theorem roundDblNat_small {n : Nat} (h : n ≤ 2 ^ 53) : roundDblNat n = n := by
  unfold roundDblNat
  rw [if_pos h]

theorem roundDbl_small {x : Int} (h1 : -(2 ^ 53) ≤ x) (h2 : x ≤ 2 ^ 53) :
    roundDbl x = x := by
  unfold roundDbl
  split_ifs with h
  · rw [roundDblNat_small (by omega)]
    exact Int.toNat_of_nonneg h
  · rw [roundDblNat_small (by omega)]
    omega

theorem jsInc_small {x : Int} (h1 : -(2 ^ 53) ≤ x + 1) (h2 : x + 1 ≤ 2 ^ 53) :
    jsInc x = x + 1 := by
  unfold jsInc
  exact roundDbl_small h1 h2

theorem getNextPrime_spec (current : Int) :
    current < getNextPrime current
    ∧ isPrimeJS (getNextPrime current) = true
    ∧ ∀ m : Int, current < m → m < getNextPrime current →
        isPrimeJS m = false := by
  refine ⟨?_, ?_, ?_⟩
  · unfold getNextPrime
    have h := Int.natCast_nonneg (Nat.find (existsNextPrime current))
    omega
  · exact Nat.find_spec (existsNextPrime current)
  · intro m h1 h2
    unfold getNextPrime at h2
    have h3 : (0 : Int) ≤ m - (current + 1) := by omega
    have h4 : ((m - (current + 1)).toNat : Int) = m - (current + 1) :=
      Int.toNat_of_nonneg h3
    have h5 : (m - (current + 1)).toNat < Nat.find (existsNextPrime current) := by
      omega
    have h6 := Nat.find_min (existsNextPrime current) h5
    have h7 : current + 1 + ((m - (current + 1)).toNat : Int) = m := by omega
    rw [h7] at h6
    cases h8 : isPrimeJS m
    · rfl
    · exact absurd h8 h6

theorem getNextPrime_le (current : Int) (h2 : current + 1 ≤ 2 ^ 52) :
    getNextPrime current ≤ 2 ^ 53 := by
  obtain ⟨p, hp, hlt, hle⟩ :=
    Nat.exists_prime_lt_and_le_two_mul (max 1 (current + 1).toNat)
      (by have := le_max_left 1 (current + 1).toNat; omega)
  have hcp : current + 1 ≤ (p : Int) := by
    have ha : ((current + 1).toNat : Int) < (p : Int) := by
      have hb : (current + 1).toNat < p :=
        lt_of_le_of_lt (le_max_right 1 (current + 1).toNat) hlt
      exact_mod_cast hb
    have hc : current + 1 ≤ ((current + 1).toNat : Int) := Int.self_le_toNat _
    omega
  have hk : isPrimeJS (current + 1 + (((p : Int) - (current + 1)).toNat : Int))
      = true := by
    rw [Int.toNat_of_nonneg (by omega),
      show current + 1 + ((p : Int) - (current + 1)) = (p : Int) from by ring]
    exact isPrimeJS_of_prime p hp
  have hfind := Nat.find_min' (existsNextPrime current) hk
  have hfle : (Nat.find (existsNextPrime current) : Int) ≤
      (((p : Int) - (current + 1)).toNat : Int) := by exact_mod_cast hfind
  have hkk : ((((p : Int) - (current + 1)).toNat : Nat) : Int) =
      (p : Int) - (current + 1) := Int.toNat_of_nonneg (by omega)
  have hp53 : (p : Int) ≤ 2 ^ 53 := by
    have h6 : p ≤ 2 * max 1 (current + 1).toNat := hle
    have h8 : (current + 1).toNat ≤ 2 ^ 52 := by omega
    have h7 : max 1 (current + 1).toNat ≤ 2 ^ 52 := max_le (by norm_num) h8
    have h9 : p ≤ 2 ^ 53 := by omega
    exact_mod_cast h9
  unfold getNextPrime
  omega

theorem nextPrimeAux_reaches : ∀ (k : Nat) (c : Int),
    -(2 ^ 53) ≤ c → c + (k : Int) ≤ 2 ^ 53 →
    (∀ j : Int, c ≤ j → j < c + (k : Int) → isPrimeJS j = false) →
    isPrimeJS (c + (k : Int)) = true →
    nextPrimeAux (k + 1) c = some (c + (k : Int))
  | 0, c, _, _, _, hp => by
    simp only [nextPrimeAux]
    rw [if_pos (by simpa using hp)]
    simp
  | k + 1, c, hlo, hhi, hnone, hp => by
    have hc : isPrimeJS c = false := hnone c le_rfl (by push_cast; omega)
    have hinc : jsInc c = c + 1 := jsInc_small (by omega)
      (by push_cast at hhi; omega)
    have ih := nextPrimeAux_reaches k (c + 1) (by omega)
      (by push_cast at hhi ⊢; omega)
      (fun j hj1 hj2 => hnone j (by omega) (by push_cast at hj2 ⊢; omega))
      (by
        rw [show c + 1 + (k : Int) = c + ((k : Nat) + 1 : Nat) from by
          push_cast; ring]
        exact hp)
    show (if isPrimeJS c = true then some c
        else nextPrimeAux (k + 1) (jsInc c)) = some (c + (((k + 1 : Nat)) : Int))
    rw [hc, if_neg (by simp), hinc, ih]
    congr 1
    push_cast
    ring

theorem nextPrime_loop_terminates (current : Int)
    (h1 : -(2 ^ 53) ≤ current) (h2 : current + 1 ≤ 2 ^ 52) :
    nextPrimeAux ((getNextPrime current - current).toNat) (jsInc current) =
      some (getNextPrime current) := by
  have hle := getNextPrime_le current h2
  have hgt := (getNextPrime_spec current).1
  have hLp := (getNextPrime_spec current).2.1
  have hstart : jsInc current = current + 1 := jsInc_small (by omega) (by omega)
  have hk : current + 1 +
      (((getNextPrime current - (current + 1)).toNat : Nat) : Int) =
      getNextPrime current := by
    rw [Int.toNat_of_nonneg (by omega)]
    ring
  have hfuel : (getNextPrime current - current).toNat =
      (getNextPrime current - (current + 1)).toNat + 1 := by omega
  rw [hstart, hfuel]
  have happ := nextPrimeAux_reaches
    ((getNextPrime current - (current + 1)).toNat) (current + 1)
    (by omega) (by rw [hk]; exact hle)
    (fun j hj1 hj2 => (getNextPrime_spec current).2.2 j (by omega)
      (by rw [hk] at hj2; exact hj2))
    (by rw [hk]; exact hLp)
  rw [happ, hk]

theorem isPrimeJS_pow53 : isPrimeJS 9007199254740992 = false := by
  unfold isPrimeJS
  rw [if_neg (by decide)]
  apply decide_eq_false
  intro hall
  exact hall 2 (by decide) (by decide) (by decide) (by decide)

theorem nextPrimeAux_stuck : ∀ f : Nat, nextPrimeAux f 9007199254740992 = none
  | 0 => rfl
  | f + 1 => by
    have hfix : jsInc 9007199254740992 = 9007199254740992 := by decide
    simp only [nextPrimeAux, isPrimeJS_pow53, Bool.false_eq_true, if_false,
      hfix, nextPrimeAux_stuck f]

theorem gateResult_shape (t : Nat × List Nat × List Nat) :
    ((gateResult t).success = true → ∃ s, (gateResult t).solution = some s)
    ∧ ((gateResult t).success = false → (gateResult t).solution = some []) := by
  constructor
  · intro _
    exact ⟨t.2.1, rfl⟩
  · intro h
    have h2 : t.2.1 = [] := by simpa [gateResult] using h
    simp [gateResult, h2]

theorem bitcoin_gt20 (p : CryptoPuzzle) (rn rd : Nat)
    (h : 20 < p.bits.getD 0) :
    solveBitcoinPuzzle p rn rd = ⟨false, none, 2 ^ p.bits.getD 0,
      msgInfeasA ++ natCodes (p.bits.getD 0) ++ msgInfeasB⟩ := by
  simp only [solveBitcoinPuzzle]
  rw [if_pos h]

theorem bitcoin_le20 (p : CryptoPuzzle) (rn rd : Nat)
    (h : p.bits.getD 0 ≤ 20) :
    solveBitcoinPuzzle p rn rd = ⟨decide (p.bits.getD 0 ≤ 15), p.solution,
      rn * 7 * 2 ^ p.bits.getD 0 / (10 * rd) + 1,
      msgSearchA ++ natCodes (p.bits.getD 0) ++ msgSearchB ++
        natCodes (2 ^ p.bits.getD 0) ++ msgSearchC⟩ := by
  simp only [solveBitcoinPuzzle]
  rw [if_neg (by omega)]

theorem dispatch_cipher (p : CryptoPuzzle) (rn rd : Nat)
    (h : p.type = tagCipher) :
    solvePuzzleWithAI p rn rd = solveCipherPuzzle p := by
  unfold solvePuzzleWithAI
  rw [h, if_pos rfl]

theorem dispatch_pattern (p : CryptoPuzzle) (rn rd : Nat)
    (h : p.type = tagPattern) :
    solvePuzzleWithAI p rn rd = solvePatternPuzzle p := by
  unfold solvePuzzleWithAI
  rw [h, if_neg (by decide), if_pos rfl]

theorem dispatch_hash (p : CryptoPuzzle) (rn rd : Nat)
    (h : p.type = tagHash) :
    solvePuzzleWithAI p rn rd = solveHashPuzzle p := by
  unfold solvePuzzleWithAI
  rw [h, if_neg (by decide), if_neg (by decide), if_pos rfl]

theorem dispatch_bitcoin (p : CryptoPuzzle) (rn rd : Nat)
    (h : p.type = tagBitcoin) :
    solvePuzzleWithAI p rn rd = solveBitcoinPuzzle p rn rd := by
  unfold solvePuzzleWithAI
  rw [h, if_neg (by decide), if_neg (by decide), if_neg (by decide),
    if_pos rfl]

theorem dispatch_pkr (p : CryptoPuzzle) (rn rd : Nat)
    (h : p.type = tagPKR) :
    solvePuzzleWithAI p rn rd = solveBitcoinPuzzle p rn rd := by
  unfold solvePuzzleWithAI
  rw [h, if_neg (by decide), if_neg (by decide), if_neg (by decide),
    if_neg (by decide), if_pos rfl]

theorem dispatch_unknown (p : CryptoPuzzle) (rn rd : Nat)
    (h1 : p.type ≠ tagCipher) (h2 : p.type ≠ tagPattern)
    (h3 : p.type ≠ tagHash) (h4 : p.type ≠ tagBitcoin)
    (h5 : p.type ≠ tagPKR) :
    solvePuzzleWithAI p rn rd = ⟨false, none, 0, nmUnknown⟩ := by
  unfold solvePuzzleWithAI
  rw [if_neg h1, if_neg h2, if_neg h3, if_neg h4, if_neg h5]

/-! ### Claims -/

/-- Claim C1, counterexample: the claim "every failure outcome carries no
solution" is false.  A `bitcoin-address` descriptor with `bitWidth = 16` and
a recorded solution "K" yields `succeeded = false` together with a present,
non-empty `solution`. -/
theorem claim1_counterexample :
    (solvePuzzleWithAI ⟨tagBitcoin, [], some [75], some 16⟩ 0 1).success = false
    ∧ (solvePuzzleWithAI ⟨tagBitcoin, [], some [75], some 16⟩ 0 1).solution = some [75] := by
  decide

/-- Claim C1, amended: outside the bounded keyspace strategy at
`bitWidth ≤ 20`, a success outcome always carries a `solution` field and a
failure outcome carries no `solution` field or an empty-string one; the
bounded keyspace strategy at `bitWidth ≤ 20` instead copies the descriptor's
recorded solution into the outcome regardless of `succeeded`. -/
theorem claim1_solution_presence (p : CryptoPuzzle) (rn rd : Nat) :
    (keyspaceType p.type = true → p.bits.getD 0 ≤ 20 →
      (solvePuzzleWithAI p rn rd).solution = p.solution)
    ∧ (keyspaceType p.type = false ∨ 20 < p.bits.getD 0 →
      ((solvePuzzleWithAI p rn rd).success = true →
        ∃ s, (solvePuzzleWithAI p rn rd).solution = some s)
      ∧ ((solvePuzzleWithAI p rn rd).success = false →
        (solvePuzzleWithAI p rn rd).solution = none ∨
          (solvePuzzleWithAI p rn rd).solution = some [])) := by
  by_cases hc : p.type = tagCipher
  · rw [dispatch_cipher p rn rd hc]
    refine ⟨fun hk _ => absurd (hc ▸ hk) (by decide), fun _ => ?_⟩
    exact ⟨fun h => (gateResult_shape _).1 h,
      fun h => Or.inr ((gateResult_shape _).2 h)⟩
  by_cases hpt : p.type = tagPattern
  · rw [dispatch_pattern p rn rd hpt]
    refine ⟨fun hk _ => absurd (hpt ▸ hk) (by decide), fun _ => ?_⟩
    exact ⟨fun h => (gateResult_shape _).1 h,
      fun h => Or.inr ((gateResult_shape _).2 h)⟩
  by_cases hh : p.type = tagHash
  · rw [dispatch_hash p rn rd hh]
    refine ⟨fun hk _ => absurd (hh ▸ hk) (by decide), fun _ => ?_⟩
    exact ⟨fun h => (hashLoop_shape _ _ _).1 h,
      fun h => Or.inl ((hashLoop_shape _ _ _).2 h)⟩
  by_cases hb : p.type = tagBitcoin
  · rw [dispatch_bitcoin p rn rd hb]
    refine ⟨fun _ hbits => ?_, fun hdisj => ?_⟩
    · rw [bitcoin_le20 p rn rd hbits]
    · rcases hdisj with hk | hbits
      · exact absurd (hb ▸ hk) (by decide)
      · rw [bitcoin_gt20 p rn rd hbits]
        exact ⟨(fun h => nomatch h), fun _ => Or.inl rfl⟩
  by_cases hk5 : p.type = tagPKR
  · rw [dispatch_pkr p rn rd hk5]
    refine ⟨fun _ hbits => ?_, fun hdisj => ?_⟩
    · rw [bitcoin_le20 p rn rd hbits]
    · rcases hdisj with hk | hbits
      · exact absurd (hk5 ▸ hk) (by decide)
      · rw [bitcoin_gt20 p rn rd hbits]
        exact ⟨(fun h => nomatch h), fun _ => Or.inl rfl⟩
  · rw [dispatch_unknown p rn rd hc hpt hh hb hk5]
    refine ⟨fun hk _ => ?_, fun _ => ⟨(fun h => nomatch h), fun _ => Or.inl rfl⟩⟩
    unfold keyspaceType at hk
    rw [Bool.or_eq_true] at hk
    rcases hk with hk | hk
    · exact absurd (of_decide_eq_true hk) hb
    · exact absurd (of_decide_eq_true hk) hk5

/-- Claim C1, witness: the amended theorem applied at a keyspace descriptor
with `bitWidth = 10` and at a `hash-preimage` descriptor with no recorded
solution. -/
theorem claim1_witness :
    (solvePuzzleWithAI ⟨tagBitcoin, [], some [75], some 10⟩ 0 1).solution =
      (⟨tagBitcoin, [], some [75], some 10⟩ : CryptoPuzzle).solution
    ∧ ((solvePuzzleWithAI ⟨tagHash, [], none, none⟩ 0 1).solution = none ∨
        (solvePuzzleWithAI ⟨tagHash, [], none, none⟩ 0 1).solution = some []) :=
  ⟨(claim1_solution_presence ⟨tagBitcoin, [], some [75], some 10⟩ 0 1).1
      (by decide) (by decide),
    ((claim1_solution_presence ⟨tagHash, [], none, none⟩ 0 1).2
      (Or.inl (by decide))).2 (by decide)⟩

/-- Claim C3: for every `bitWidth ≤ 20` and every value of the injected
randomness source, the bounded keyspace strategy succeeds exactly when
`bitWidth ≤ 15`, and its reported `attempts` never exceeds the keyspace size
`2 ^ bitWidth`. -/
theorem claim3_two_tier (p : CryptoPuzzle) (rn rd : Nat)
    (hb : p.bits.getD 0 ≤ 20) (hr : rn < rd) :
    ((solveBitcoinPuzzle p rn rd).success = true ↔ p.bits.getD 0 ≤ 15)
    ∧ (solveBitcoinPuzzle p rn rd).attempts ≤ 2 ^ p.bits.getD 0 := by
  rw [bitcoin_le20 p rn rd hb]
  exact ⟨decide_eq_true_iff, randAttempts_le hr⟩

/-- Claim C3, witness: `bitWidth = 10` with randomness 0/1 succeeds within
the keyspace bound. -/
theorem claim3_witness :
    (solveBitcoinPuzzle ⟨tagBitcoin, [], some [75], some 10⟩ 0 1).success = true
    ∧ (solveBitcoinPuzzle ⟨tagBitcoin, [], some [75], some 10⟩ 0 1).attempts ≤ 2 ^ 10 :=
  ⟨(claim3_two_tier ⟨tagBitcoin, [], some [75], some 10⟩ 0 1 (by decide)
      (by decide)).1.mpr (by decide),
    (claim3_two_tier ⟨tagBitcoin, [], some [75], some 10⟩ 0 1 (by decide)
      (by decide)).2⟩

/-- Claim C4: for every `bitWidth > 20` the bounded keyspace strategy fails
immediately with `attempts` exactly `2 ^ bitWidth` (exact arithmetic, no
overflow at any width) and a method string citing the keyspace as
"Brute force (2^bits keys) - computationally infeasible". -/
theorem claim4_infeasible (p : CryptoPuzzle) (rn rd : Nat)
    (h : 20 < p.bits.getD 0) :
    solveBitcoinPuzzle p rn rd = ⟨false, none, 2 ^ p.bits.getD 0,
      msgInfeasA ++ natCodes (p.bits.getD 0) ++ msgInfeasB⟩ :=
  bitcoin_gt20 p rn rd h

/-- Claim C4, witness: `bitWidth = 66` reports exactly `2 ^ 66 =
73786976294838206464` attempts. -/
theorem claim4_witness :
    (solveBitcoinPuzzle ⟨tagBitcoin, [], none, some 66⟩ 0 1).attempts =
      73786976294838206464
    ∧ (solveBitcoinPuzzle ⟨tagBitcoin, [], none, some 66⟩ 0 1).success = false := by
  rw [claim4_infeasible ⟨tagBitcoin, [], none, some 66⟩ 0 1 (by decide)]
  exact ⟨by norm_num, rfl⟩

/-- Claim C6: the dictionary strategy walks the fixed candidate list in
order; the first exact match stops it with that candidate as solution and
its 1-based position as `attempts`; with no match it fails with `attempts`
equal to the list length (12). -/
theorem claim6_dictionary (p : CryptoPuzzle) (t : List Nat)
    (h : p.solution = some t) :
    (t ∈ commonInputs →
      solveHashPuzzle p = ⟨true, some t, idxOf t commonInputs + 1, nmDictFound⟩)
    ∧ (t ∉ commonInputs →
      solveHashPuzzle p = ⟨false, none, 12, nmDictFail⟩) := by
  constructor
  · intro hmem
    unfold solveHashPuzzle
    rw [h]
    simpa using hashLoop_found commonInputs 0 t hmem
  · intro hmem
    unfold solveHashPuzzle
    rw [h]
    have h2 := hashLoop_notFound commonInputs 0 (some t) (by
      intro x hx hs
      exact hmem (Option.some.inj hs ▸ hx))
    simpa using h2

/-- Claim C6, witness: target "bar" matches at position 3; target "zzz"
exhausts all 12 candidates. -/
theorem claim6_witness :
    solveHashPuzzle ⟨tagHash, [], some [98, 97, 114], none⟩ =
      ⟨true, some [98, 97, 114], 3, nmDictFound⟩
    ∧ solveHashPuzzle ⟨tagHash, [], some [122, 122, 122], none⟩ =
      ⟨false, none, 12, nmDictFail⟩ := by
  constructor
  · exact (claim6_dictionary ⟨tagHash, [], some [98, 97, 114], none⟩
      [98, 97, 114] rfl).1 (by decide)
  · exact (claim6_dictionary ⟨tagHash, [], some [122, 122, 122], none⟩
      [122, 122, 122] rfl).2 (by decide)

/-- Claim C7, counterexample: the dispatcher's default branch labels the
outcome "Unknown puzzle type", not the "unrecognized category" string the
claim names (attempts 0 and failure do hold). -/
theorem claim7_counterexample :
    (solvePuzzleWithAI ⟨[102, 111, 111], [], none, none⟩ 0 1).attempts = 0
    ∧ (solvePuzzleWithAI ⟨[102, 111, 111], [], none, none⟩ 0 1).success = false
    ∧ (solvePuzzleWithAI ⟨[102, 111, 111], [], none, none⟩ 0 1).method ≠
      specUnrecognized := by
  decide

/-- Claim C7, amended: an unrecognized category yields a failure outcome
with `attempts = 0` and the label "Unknown puzzle type" (the dispatcher is a
total function, so no error reaches the caller). -/
theorem claim7_unrecognized (p : CryptoPuzzle) (rn rd : Nat)
    (h1 : p.type ≠ tagCipher) (h2 : p.type ≠ tagPattern)
    (h3 : p.type ≠ tagHash) (h4 : p.type ≠ tagBitcoin)
    (h5 : p.type ≠ tagPKR) :
    solvePuzzleWithAI p rn rd = ⟨false, none, 0, nmUnknown⟩ :=
  dispatch_unknown p rn rd h1 h2 h3 h4 h5

/-- Claim C7, witness: the category "foo" is not one of the five tags. -/
theorem claim7_witness :
    solvePuzzleWithAI ⟨[102, 111, 111], [], none, none⟩ 0 1 =
      ⟨false, none, 0, nmUnknown⟩ :=
  claim7_unrecognized ⟨[102, 111, 111], [], none, none⟩ 0 1
    (by decide) (by decide) (by decide) (by decide) (by decide)

/-- Evaluation of the next-prime search after 19 (the least prime above 19
is 23). -/
theorem getNextPrime_19 : getNextPrime 19 = 23 := by
  have h : Nat.find (existsNextPrime 19) = 3 := by
    rw [Nat.find_eq_iff]
    refine ⟨by decide, ?_⟩
    intro m hm
    interval_cases m <;> decide
  unfold getNextPrime
  rw [h]
  norm_num

/-- Claim C9, counterexample: the next-prime loop does not terminate for
every integer input.  Started from 9007199254740991 (= 2^53 - 1) the
candidate becomes 2^53, which is composite, and `candidate++` is a
floating-point no-op there (2^53 + 1 rounds back to the even significand),
so no amount of fuel makes the loop exit. -/
theorem claim9_counterexample : ¬ nextPrimeTerminates 9007199254740991 := by
  rintro ⟨f, hf⟩
  have hstart : jsInc 9007199254740991 = 9007199254740992 := by decide
  rw [hstart, nextPrimeAux_stuck f] at hf
  simp at hf

/-- Claim C9, amended: every strategy other than the next-prime loop works
within a fixed bound (5 cascade trials, 1 pattern branch, 12 dictionary
candidates, at most `2 ^ bitWidth` declared keyspace attempts), and the
next-prime loop terminates — at the least `isPrime` value above its start,
in exactly that many steps — for every start in [-2^53, 2^52 - 1]; outside
that range the loop can run forever (counterexample at 2^53 - 1). -/
theorem claim9_bounded_termination (current : Int) :
    (-(2 ^ 53) ≤ current → current + 1 ≤ 2 ^ 52 →
      nextPrimeAux ((getNextPrime current - current).toNat) (jsInc current) =
        some (getNextPrime current))
    ∧ current < getNextPrime current
    ∧ isPrimeJS (getNextPrime current) = true
    ∧ (∀ m : Int, current < m → m < getNextPrime current →
        isPrimeJS m = false)
    ∧ (∀ p : CryptoPuzzle, (solveCipherPuzzle p).attempts ≤ 5
        ∧ (solvePatternPuzzle p).attempts ≤ 1
        ∧ (solveHashPuzzle p).attempts ≤ 12)
    ∧ (∀ (p : CryptoPuzzle) (rn rd : Nat), rn < rd →
        (solveBitcoinPuzzle p rn rd).attempts ≤ 2 ^ p.bits.getD 0) := by
  refine ⟨fun h1 h2 => nextPrime_loop_terminates current h1 h2,
    (getNextPrime_spec current).1, (getNextPrime_spec current).2.1,
    (getNextPrime_spec current).2.2, ?_, ?_⟩
  · intro p
    refine ⟨?_, ?_, ?_⟩
    · exact tryDecoders_att_le (decoderAttempts p.challenge) 0
    · unfold solvePatternPuzzle
      dsimp only
      split_ifs <;> simp [gateResult]
    · exact hashLoop_att_le commonInputs 0 p.solution
  · intro p rn rd hr
    by_cases h : 20 < p.bits.getD 0
    · rw [bitcoin_gt20 p rn rd h]
    · rw [bitcoin_le20 p rn rd (by omega)]
      exact randAttempts_le hr

/-- Claim C9, witness: started after 19 the loop terminates (at the least
`isPrime` value above 19, within the stated fuel), and a sample
descriptor's dictionary attempts stay within bound. -/
theorem claim9_witness :
    nextPrimeAux ((getNextPrime 19 - 19).toNat) (jsInc 19) =
      some (getNextPrime 19)
    ∧ 19 < getNextPrime 19
    ∧ isPrimeJS (getNextPrime 19) = true
    ∧ (solveHashPuzzle ⟨tagHash, [], none, none⟩).attempts ≤ 12 :=
  ⟨(claim9_bounded_termination 19).1 (by decide) (by decide),
    (claim9_bounded_termination 19).2.1,
    (claim9_bounded_termination 19).2.2.1,
    ((claim9_bounded_termination 19).2.2.2.2.1 ⟨tagHash, [], none, none⟩).2.2⟩

/-- The output the cascade's `i`-th decoder (0-based) produces on a
challenge. -/
def nthOutput (ch : List Nat) (i : Nat) : List Nat :=
  ((decoderAttempts ch).getD i ([], [])).2

/-- The name of the cascade's `i`-th decoder (0-based). -/
def nthName (i : Nat) : List Nat :=
  [nmBase64, nmHexName, nmROT13, nmBinaryName, nmXORName].getD i []

theorem mem_decoderAttempts {ch : List Nat} {q : List Nat × List Nat}
    (h : q ∈ decoderAttempts ch) :
    q = (nmBase64, decodeBase64 ch) ∨ q = (nmHexName, hexToAscii ch) ∨
    q = (nmROT13, decodeROT13 ch) ∨ q = (nmBinaryName, binaryToAscii ch) ∨
    q = (nmXORName, decodeXOR ch keyKEY) := by
  simpa [decoderAttempts] using h

/-- Claim C2, counterexample: on the challenge "\n" every decoder's output
is rejected and the cascade reports failure with `attempts = 5` — but its
`strategyName` is the empty string, not a description that all methods were
exhausted. -/
theorem claim2_counterexample :
    (solveCipherPuzzle ⟨tagCipher, [10], none, none⟩).attempts = 5
    ∧ (solveCipherPuzzle ⟨tagCipher, [10], none, none⟩).success = false
    ∧ (solveCipherPuzzle ⟨tagCipher, [10], none, none⟩).method = [] := by
  decide

/-- Claim C2, amended: the cascade tries Base64, Hex→ASCII, ROT13,
Binary→ASCII, XOR-with-"KEY" in that fixed order and stops at the first
output that is non-empty printable ASCII, reporting that codec's name and
the 1-based trial count; if every output is rejected it fails with
`attempts = 5`, an empty `strategyName` (not a descriptive message), and an
empty-string solution. -/
theorem claim2_cascade (p : CryptoPuzzle) (i : Nat) :
    (i < 5 → accept (nthOutput p.challenge i) = true →
      (∀ j, j < i → accept (nthOutput p.challenge j) = false) →
      solveCipherPuzzle p =
        ⟨true, some (nthOutput p.challenge i), i + 1, nthName i⟩)
    ∧ ((∀ j, j < 5 → accept (nthOutput p.challenge j) = false) →
      solveCipherPuzzle p = ⟨false, some [], 5, []⟩) := by
  constructor
  · intro hi hacc hprev
    unfold solveCipherPuzzle
    interval_cases i
    · have e := tryDecoders_accept [] (nmBase64, decodeBase64 p.challenge)
        [(nmHexName, hexToAscii p.challenge), (nmROT13, decodeROT13 p.challenge),
         (nmBinaryName, binaryToAscii p.challenge),
         (nmXORName, decodeXOR p.challenge keyKEY)] 0
        (by intro q hq; cases hq) hacc
      rw [show decoderAttempts p.challenge = [] ++
        (nmBase64, decodeBase64 p.challenge) ::
        [(nmHexName, hexToAscii p.challenge), (nmROT13, decodeROT13 p.challenge),
         (nmBinaryName, binaryToAscii p.challenge),
         (nmXORName, decodeXOR p.challenge keyKEY)] from rfl, e]
      unfold gateResult
      congr 1
      exact decide_eq_true (accept_ne_nil hacc)
    · have e := tryDecoders_accept [(nmBase64, decodeBase64 p.challenge)]
        (nmHexName, hexToAscii p.challenge)
        [(nmROT13, decodeROT13 p.challenge),
         (nmBinaryName, binaryToAscii p.challenge),
         (nmXORName, decodeXOR p.challenge keyKEY)] 0
        (by
          intro q hq
          rcases List.mem_cons.mp hq with rfl | hq2
          · exact hprev 0 (by omega)
          · cases hq2) hacc
      rw [show decoderAttempts p.challenge =
        [(nmBase64, decodeBase64 p.challenge)] ++
        (nmHexName, hexToAscii p.challenge) ::
        [(nmROT13, decodeROT13 p.challenge),
         (nmBinaryName, binaryToAscii p.challenge),
         (nmXORName, decodeXOR p.challenge keyKEY)] from rfl, e]
      unfold gateResult
      congr 1
      exact decide_eq_true (accept_ne_nil hacc)
    · have e := tryDecoders_accept
        [(nmBase64, decodeBase64 p.challenge), (nmHexName, hexToAscii p.challenge)]
        (nmROT13, decodeROT13 p.challenge)
        [(nmBinaryName, binaryToAscii p.challenge),
         (nmXORName, decodeXOR p.challenge keyKEY)] 0
        (by
          intro q hq
          rcases List.mem_cons.mp hq with rfl | hq2
          · exact hprev 0 (by omega)
          rcases List.mem_cons.mp hq2 with rfl | hq3
          · exact hprev 1 (by omega)
          · cases hq3) hacc
      rw [show decoderAttempts p.challenge =
        [(nmBase64, decodeBase64 p.challenge), (nmHexName, hexToAscii p.challenge)] ++
        (nmROT13, decodeROT13 p.challenge) ::
        [(nmBinaryName, binaryToAscii p.challenge),
         (nmXORName, decodeXOR p.challenge keyKEY)] from rfl, e]
      unfold gateResult
      congr 1
      exact decide_eq_true (accept_ne_nil hacc)
    · have e := tryDecoders_accept
        [(nmBase64, decodeBase64 p.challenge), (nmHexName, hexToAscii p.challenge),
         (nmROT13, decodeROT13 p.challenge)]
        (nmBinaryName, binaryToAscii p.challenge)
        [(nmXORName, decodeXOR p.challenge keyKEY)] 0
        (by
          intro q hq
          rcases List.mem_cons.mp hq with rfl | hq2
          · exact hprev 0 (by omega)
          rcases List.mem_cons.mp hq2 with rfl | hq3
          · exact hprev 1 (by omega)
          rcases List.mem_cons.mp hq3 with rfl | hq4
          · exact hprev 2 (by omega)
          · cases hq4) hacc
      rw [show decoderAttempts p.challenge =
        [(nmBase64, decodeBase64 p.challenge), (nmHexName, hexToAscii p.challenge),
         (nmROT13, decodeROT13 p.challenge)] ++
        (nmBinaryName, binaryToAscii p.challenge) ::
        [(nmXORName, decodeXOR p.challenge keyKEY)] from rfl, e]
      unfold gateResult
      congr 1
      exact decide_eq_true (accept_ne_nil hacc)
    · have e := tryDecoders_accept
        [(nmBase64, decodeBase64 p.challenge), (nmHexName, hexToAscii p.challenge),
         (nmROT13, decodeROT13 p.challenge), (nmBinaryName, binaryToAscii p.challenge)]
        (nmXORName, decodeXOR p.challenge keyKEY) [] 0
        (by
          intro q hq
          rcases List.mem_cons.mp hq with rfl | hq2
          · exact hprev 0 (by omega)
          rcases List.mem_cons.mp hq2 with rfl | hq3
          · exact hprev 1 (by omega)
          rcases List.mem_cons.mp hq3 with rfl | hq4
          · exact hprev 2 (by omega)
          rcases List.mem_cons.mp hq4 with rfl | hq5
          · exact hprev 3 (by omega)
          · cases hq5) hacc
      rw [show decoderAttempts p.challenge =
        [(nmBase64, decodeBase64 p.challenge), (nmHexName, hexToAscii p.challenge),
         (nmROT13, decodeROT13 p.challenge), (nmBinaryName, binaryToAscii p.challenge)] ++
        (nmXORName, decodeXOR p.challenge keyKEY) :: [] from rfl, e]
      unfold gateResult
      congr 1
      exact decide_eq_true (accept_ne_nil hacc)
  · intro hall
    unfold solveCipherPuzzle
    have e := tryDecoders_all (decoderAttempts p.challenge) 0 (by
      intro q hq
      rcases mem_decoderAttempts hq with rfl | rfl | rfl | rfl | rfl
      · exact hall 0 (by omega)
      · exact hall 1 (by omega)
      · exact hall 2 (by omega)
      · exact hall 3 (by omega)
      · exact hall 4 (by omega))
    rw [e]
    rfl

/-- Claim C2, witness: the Base64 self-test vector is accepted at the first
trial with solution "PrivateKeyFragment". -/
theorem claim2_witness :
    solveCipherPuzzle ⟨tagCipher, [85, 72, 74, 112, 100, 109, 70, 48, 90, 85,
      116, 108, 101, 85, 90, 121, 89, 87, 100, 116, 90, 87, 53, 48], none,
      none⟩ = ⟨true, some [80, 114, 105, 118, 97, 116, 101, 75, 101, 121, 70,
      114, 97, 103, 109, 101, 110, 116], 1, nmBase64⟩ :=
  (claim2_cascade _ 0).1 (by omega) (by decide)
    (fun j hj => absurd hj (Nat.not_lt_zero j))

/-- Claim C10: a non-empty all-printable challenge is always solved within
three trials — ROT13 maps printable ASCII onto printable ASCII, so the
third decoder is accepted whenever the first two were not. -/
theorem claim10_printable_succeeds (p : CryptoPuzzle)
    (hne : p.challenge ≠ [])
    (hpr : ∀ c ∈ p.challenge, 32 ≤ c ∧ c ≤ 126) :
    (solveCipherPuzzle p).success = true
    ∧ (solveCipherPuzzle p).attempts ≤ 3 := by
  have hrot := accept_rot13 p.challenge hne hpr
  unfold solveCipherPuzzle
  by_cases h0 : accept (decodeBase64 p.challenge) = true
  · have e := tryDecoders_accept [] (nmBase64, decodeBase64 p.challenge)
      [(nmHexName, hexToAscii p.challenge), (nmROT13, decodeROT13 p.challenge),
       (nmBinaryName, binaryToAscii p.challenge),
       (nmXORName, decodeXOR p.challenge keyKEY)] 0
      (by intro q hq; cases hq) h0
    rw [show decoderAttempts p.challenge = [] ++
      (nmBase64, decodeBase64 p.challenge) ::
      [(nmHexName, hexToAscii p.challenge), (nmROT13, decodeROT13 p.challenge),
       (nmBinaryName, binaryToAscii p.challenge),
       (nmXORName, decodeXOR p.challenge keyKEY)] from rfl, e]
    exact ⟨decide_eq_true (accept_ne_nil h0), by show (1 : Nat) ≤ 3; omega⟩
  · rw [Bool.not_eq_true] at h0
    by_cases h1 : accept (hexToAscii p.challenge) = true
    · have e := tryDecoders_accept [(nmBase64, decodeBase64 p.challenge)]
        (nmHexName, hexToAscii p.challenge)
        [(nmROT13, decodeROT13 p.challenge),
         (nmBinaryName, binaryToAscii p.challenge),
         (nmXORName, decodeXOR p.challenge keyKEY)] 0
        (by
          intro q hq
          rcases List.mem_cons.mp hq with rfl | hq2
          · exact h0
          · cases hq2) h1
      rw [show decoderAttempts p.challenge =
        [(nmBase64, decodeBase64 p.challenge)] ++
        (nmHexName, hexToAscii p.challenge) ::
        [(nmROT13, decodeROT13 p.challenge),
         (nmBinaryName, binaryToAscii p.challenge),
         (nmXORName, decodeXOR p.challenge keyKEY)] from rfl, e]
      exact ⟨decide_eq_true (accept_ne_nil h1), by show (2 : Nat) ≤ 3; omega⟩
    · rw [Bool.not_eq_true] at h1
      have e := tryDecoders_accept
        [(nmBase64, decodeBase64 p.challenge), (nmHexName, hexToAscii p.challenge)]
        (nmROT13, decodeROT13 p.challenge)
        [(nmBinaryName, binaryToAscii p.challenge),
         (nmXORName, decodeXOR p.challenge keyKEY)] 0
        (by
          intro q hq
          rcases List.mem_cons.mp hq with rfl | hq2
          · exact h0
          rcases List.mem_cons.mp hq2 with rfl | hq3
          · exact h1
          · cases hq3) hrot
      rw [show decoderAttempts p.challenge =
        [(nmBase64, decodeBase64 p.challenge), (nmHexName, hexToAscii p.challenge)] ++
        (nmROT13, decodeROT13 p.challenge) ::
        [(nmBinaryName, binaryToAscii p.challenge),
         (nmXORName, decodeXOR p.challenge keyKEY)] from rfl, e]
      exact ⟨decide_eq_true (accept_ne_nil hrot), by show (3 : Nat) ≤ 3; omega⟩

/-- Claim C10, witness: the printable challenge "abc" is solved (by ROT13)
within three trials. -/
theorem claim10_witness :
    (solveCipherPuzzle ⟨tagCipher, [97, 98, 99], none, none⟩).success = true
    ∧ (solveCipherPuzzle ⟨tagCipher, [97, 98, 99], none, none⟩).attempts ≤ 3 :=
  claim10_printable_succeeds ⟨tagCipher, [97, 98, 99], none, none⟩
    (by decide) (by decide)

/-- Claim C5, counterexample: on the challenge
"1, 1, 2, 3, 5, 8, 1, 9007199254740993" (which carries the Fibonacci
signature) the reported solution is "9007199254740992" — the double-rounded
sum — and not the decimal rendering of the exact sum of the last two parsed
values, which is 9007199254740993 (1 + 9007199254740992; the last token
itself already parses to the nearest double 9007199254740992). -/
theorem claim5_counterexample :
    (solvePatternPuzzle ⟨tagPattern, [49, 44, 32, 49, 44, 32, 50, 44, 32, 51,
      44, 32, 53, 44, 32, 56, 44, 32, 49, 44, 32, 57, 48, 48, 55, 49, 57, 57,
      50, 53, 52, 55, 52, 48, 57, 57, 51], none, none⟩).solution ≠
      some (intCodes
        ((parseNumbers [49, 44, 32, 49, 44, 32, 50, 44, 32, 51, 44, 32, 53,
          44, 32, 56, 44, 32, 49, 44, 32, 57, 48, 48, 55, 49, 57, 57, 50, 53,
          52, 55, 52, 48, 57, 57, 51]).getD
          ((parseNumbers [49, 44, 32, 49, 44, 32, 50, 44, 32, 51, 44, 32, 53,
            44, 32, 56, 44, 32, 49, 44, 32, 57, 48, 48, 55, 49, 57, 57, 50,
            53, 52, 55, 52, 48, 57, 57, 51]).length - 2) 0 +
         (parseNumbers [49, 44, 32, 49, 44, 32, 50, 44, 32, 51, 44, 32, 53,
          44, 32, 56, 44, 32, 49, 44, 32, 57, 48, 48, 55, 49, 57, 57, 50, 53,
          52, 55, 52, 48, 57, 57, 51]).getD
          ((parseNumbers [49, 44, 32, 49, 44, 32, 50, 44, 32, 51, 44, 32, 53,
            44, 32, 56, 44, 32, 49, 44, 32, 57, 48, 48, 55, 49, 57, 57, 50,
            53, 52, 55, 52, 48, 57, 57, 51]).length - 1) 0))
    ∧ (solvePatternPuzzle ⟨tagPattern, [49, 44, 32, 49, 44, 32, 50, 44, 32,
      51, 44, 32, 53, 44, 32, 56, 44, 32, 49, 44, 32, 57, 48, 48, 55, 49, 57,
      57, 50, 53, 52, 55, 52, 48, 57, 57, 51], none, none⟩).solution =
      some (intCodes 9007199254740992) := by
  decide

/-- Claim C5, amended: the sequence strategy checks the Fibonacci signature,
then the prime signature, then the all-binary shape, in that order, but the
numeric branches hold only at double-exact magnitudes: when the Fibonacci
signature matches and the exact sum of the last two parsed values lies
within ±2^53, the solution is that sum; when the prime signature matches
and the last parsed value lies in [-2^53, 2^52 - 1], the solution is the
smallest `isPrime` value above it and the search loop indeed terminates
there; the binary branch decodes via Binary→ASCII unconditionally.  At
larger magnitudes the parse and the sum round to doubles (counterexample)
and the prime search need not terminate. -/
theorem claim5_sequence (p : CryptoPuzzle) :
    (containsSub fibSig p.challenge = true →
      2 ≤ (parseNumbers p.challenge).length →
      -(2 ^ 53) ≤ (parseNumbers p.challenge).getD ((parseNumbers p.challenge).length - 2) 0 +
        (parseNumbers p.challenge).getD ((parseNumbers p.challenge).length - 1) 0 →
      (parseNumbers p.challenge).getD ((parseNumbers p.challenge).length - 2) 0 +
        (parseNumbers p.challenge).getD ((parseNumbers p.challenge).length - 1) 0 ≤ 2 ^ 53 →
      solvePatternPuzzle p = ⟨true,
        some (intCodes
          ((parseNumbers p.challenge).getD ((parseNumbers p.challenge).length - 2) 0 +
           (parseNumbers p.challenge).getD ((parseNumbers p.challenge).length - 1) 0)),
        1, nmFib⟩)
    ∧ (containsSub fibSig p.challenge = false →
      containsSub primeSig p.challenge = true →
      parseNumbers p.challenge ≠ [] →
      -(2 ^ 53) ≤ (parseNumbers p.challenge).getD ((parseNumbers p.challenge).length - 1) 0 →
      (parseNumbers p.challenge).getD ((parseNumbers p.challenge).length - 1) 0 + 1 ≤ 2 ^ 52 →
      solvePatternPuzzle p = ⟨true,
        some (intCodes (getNextPrime
          ((parseNumbers p.challenge).getD ((parseNumbers p.challenge).length - 1) 0))),
        1, nmPrime⟩
      ∧ nextPrimeAux
          ((getNextPrime ((parseNumbers p.challenge).getD ((parseNumbers p.challenge).length - 1) 0) -
            (parseNumbers p.challenge).getD ((parseNumbers p.challenge).length - 1) 0).toNat)
          (jsInc ((parseNumbers p.challenge).getD ((parseNumbers p.challenge).length - 1) 0)) =
        some (getNextPrime
          ((parseNumbers p.challenge).getD ((parseNumbers p.challenge).length - 1) 0)))
    ∧ (containsSub fibSig p.challenge = false →
      containsSub primeSig p.challenge = false →
      isBinaryish p.challenge = true →
      solvePatternPuzzle p =
        ⟨true, some (binaryToAscii p.challenge), 1, nmBinConv⟩) := by
  refine ⟨?_, ?_, ?_⟩
  · intro hfib hlen hslo hshi
    unfold solvePatternPuzzle
    dsimp only
    rw [if_pos hfib]
    have hfe : solveFibonacci p.challenge = intCodes
        ((parseNumbers p.challenge).getD ((parseNumbers p.challenge).length - 2) 0 +
         (parseNumbers p.challenge).getD ((parseNumbers p.challenge).length - 1) 0) := by
      unfold solveFibonacci
      rw [if_neg (by omega), roundDbl_small hslo hshi]
    unfold gateResult
    rw [hfe]
    congr 1
    exact decide_eq_true (intCodes_ne_nil _)
  · intro hfib hprime hne hlo hhi
    refine ⟨?_, nextPrime_loop_terminates _ hlo hhi⟩
    unfold solvePatternPuzzle
    dsimp only
    rw [if_neg (by simp [hfib]), if_pos hprime]
    have hpe : solvePrimeSequence p.challenge = intCodes (getNextPrime
        ((parseNumbers p.challenge).getD ((parseNumbers p.challenge).length - 1) 0)) := by
      unfold solvePrimeSequence
      rw [if_neg (by simpa [List.isEmpty_iff] using hne)]
    unfold gateResult
    rw [hpe]
    congr 1
    exact decide_eq_true (intCodes_ne_nil _)
  · intro hfib hprime hbin
    unfold solvePatternPuzzle
    dsimp only
    rw [if_neg (by simp [hfib]), if_neg (by simp [hprime]), if_pos hbin]
    unfold gateResult
    congr 1
    exact decide_eq_true (binaryToAscii_ne_nil _)

/-- Claim C5, witness: the three self-test vectors.
"1, 1, 2, 3, 5, 8, 13, 21" yields "34"; "2, 3, 5, 7, 11, 13, 17, 19" yields
"23"; "01000010 01010100 01000011" yields "BTC". -/
theorem claim5_witness :
    solvePatternPuzzle ⟨tagPattern, [49, 44, 32, 49, 44, 32, 50, 44, 32, 51,
      44, 32, 53, 44, 32, 56, 44, 32, 49, 51, 44, 32, 50, 49], none, none⟩ =
      ⟨true, some [51, 52], 1, nmFib⟩
    ∧ solvePatternPuzzle ⟨tagPattern, [50, 44, 32, 51, 44, 32, 53, 44, 32, 55,
      44, 32, 49, 49, 44, 32, 49, 51, 44, 32, 49, 55, 44, 32, 49, 57], none,
      none⟩ = ⟨true, some [50, 51], 1, nmPrime⟩
    ∧ solvePatternPuzzle ⟨tagPattern, [48, 49, 48, 48, 48, 48, 49, 48, 32, 48,
      49, 48, 49, 48, 49, 48, 48, 32, 48, 49, 48, 48, 48, 48, 49, 49], none,
      none⟩ = ⟨true, some [66, 84, 67], 1, nmBinConv⟩ := by
  refine ⟨?_, ?_, ?_⟩
  · exact (claim5_sequence _).1 (by decide) (by decide) (by decide) (by decide)
  · have h := ((claim5_sequence ⟨tagPattern, [50, 44, 32, 51, 44, 32, 53, 44,
      32, 55, 44, 32, 49, 49, 44, 32, 49, 51, 44, 32, 49, 55, 44, 32, 49, 57],
      none, none⟩).2.1 (by decide) (by decide) (by decide) (by decide)
      (by decide)).1
    rw [h]
    have h19 : ((parseNumbers ([50, 44, 32, 51, 44, 32, 53, 44, 32, 55, 44, 32,
        49, 49, 44, 32, 49, 51, 44, 32, 49, 55, 44, 32, 49, 57] : List Nat)).getD
        ((parseNumbers ([50, 44, 32, 51, 44, 32, 53, 44, 32, 55, 44, 32, 49, 49,
        44, 32, 49, 51, 44, 32, 49, 55, 44, 32, 49, 57] : List Nat)).length - 1) 0)
        = (19 : Int) := by decide
    rw [h19, getNextPrime_19]
    rfl
  · exact (claim5_sequence _).2.2 (by decide) (by decide) (by decide)

theorem digitVal_of_hex {c : Nat} (h : isHexDigit c = true) :
    ∃ v, digitVal c = some v ∧ v < 16 := by
  simp only [isHexDigit, decide_eq_true_eq] at h
  unfold digitVal
  rcases h with h | h | h
  · rw [if_pos h]
    exact ⟨c - 48, rfl, by omega⟩
  · rw [if_neg (by omega), if_pos (by omega)]
    exact ⟨c - 55, rfl, by omega⟩
  · rw [if_neg (by omega), if_neg (by omega), if_pos (by omega)]
    exact ⟨c - 87, rfl, by omega⟩

theorem hex_not_ws {c : Nat} (h : isHexDigit c = true) : isJsWs c = false := by
  simp only [isHexDigit, decide_eq_true_eq] at h
  simp only [isJsWs, decide_eq_false_iff_not]
  omega

theorem hexPair_parse {a b : Nat} (ha : isHexDigit a = true)
    (hb : isHexDigit b = true) :
    jsFromCharCode (parseIntJS (some 16) [a, b]) =
      16 * (digitVal a).getD 0 + (digitVal b).getD 0 := by
  obtain ⟨va, hva, hva16⟩ := digitVal_of_hex ha
  obtain ⟨vb, hvb, hvb16⟩ := digitVal_of_hex hb
  have hra : (48 ≤ a ∧ a ≤ 57) ∨ (65 ≤ a ∧ a ≤ 70) ∨ (97 ≤ a ∧ a ≤ 102) := by
    simpa only [isHexDigit, decide_eq_true_eq] using ha
  have hrb : (48 ≤ b ∧ b ≤ 57) ∨ (65 ≤ b ∧ b ≤ 70) ∨ (97 ≤ b ∧ b ≤ 102) := by
    simpa only [isHexDigit, decide_eq_true_eq] using hb
  have hdw : List.dropWhile isJsWs [a, b] = [a, b] := by
    simp [List.dropWhile_cons, hex_not_ws ha]
  have hss : stripSign [a, b] = (1, [a, b]) := by
    unfold stripSign
    rw [if_neg (by simp only [List.headD_cons]; omega),
      if_neg (by simp only [List.headD_cons]; omega)]
  have hshm : stripHexMark [a, b] = [a, b] := by
    unfold stripHexMark
    rw [if_neg ?_]
    intro hcond
    unfold hasHexMark at hcond
    rw [Bool.and_eq_true] at hcond
    obtain ⟨h1, _⟩ := hcond
    rw [decide_eq_true_eq] at h1
    simp only [List.headD_cons, List.tail_cons] at h1
    omega
  have hta : (match digitVal a with
      | some v => decide (v < 16)
      | none => false) = true := by
    rw [hva]
    exact decide_eq_true hva16
  have htb : (match digitVal b with
      | some v => decide (v < 16)
      | none => false) = true := by
    rw [hvb]
    exact decide_eq_true hvb16
  have ht : List.takeWhile (fun c => match digitVal c with
      | some v => decide (v < 16)
      | none => false) [a, b] = [a, b] := by
    rw [List.takeWhile_cons, hta]
    rw [List.takeWhile_cons, htb]
    rfl
  have hpd : parseIntDigits 16 [a, b] = some (va * 16 + vb) := by
    unfold parseIntDigits
    rw [ht]
    rw [if_neg (by simp)]
    simp only [List.foldl, hva, hvb, Option.getD_some]
    congr 1
    ring
  unfold parseIntJS
  show jsFromCharCode (parseSigned 16
      (stripSign (List.dropWhile isJsWs [a, b])).1
      (stripHexMark (stripSign (List.dropWhile isJsWs [a, b])).2)) = _
  rw [hdw, hss]
  show jsFromCharCode (parseSigned 16 1 (stripHexMark [a, b])) = _
  rw [hshm]
  unfold parseSigned
  rw [hpd]
  unfold jsFromCharCode
  rw [Option.getD_some, one_mul]
  have hge : (0 : Int) ≤ ((va * 16 + vb : Nat) : Int) := Int.natCast_nonneg _
  have hrd : roundDbl ((va * 16 + vb : Nat) : Int) = ((va * 16 + vb : Nat) : Int) :=
    roundDbl_small (by omega) (by exact_mod_cast (by omega : va * 16 + vb ≤ 2 ^ 53))
  rw [hrd]
  have hlt : ((va * 16 + vb : Nat) : Int) < 65536 := by
    have h2 : va * 16 + vb < 65536 := by omega
    exact_mod_cast h2
  have hm : ((va * 16 + vb : Nat) : Int).emod 65536 =
      ((va * 16 + vb : Nat) : Int) := Int.emod_eq_of_lt hge hlt
  rw [hm, Int.toNat_natCast, hva, hvb]
  simp only [Option.getD_some]
  omega

theorem hexToAscii_valid (input : List Nat)
    (h : validHexPairs (input.filter (fun c => !(isJsWs c))) = true) :
    hexToAscii input =
      (chunks2 (input.filter (fun c => !(isJsWs c)))).map hexPairByte := by
  unfold hexToAscii
  apply List.map_congr_left
  intro c hc
  unfold validHexPairs at h
  rw [List.all_eq_true] at h
  have hcv := h c hc
  rw [Bool.and_eq_true] at hcv
  obtain ⟨hlen, hhex⟩ := hcv
  rw [decide_eq_true_eq] at hlen
  rcases c with _ | ⟨x, rest⟩
  · simp at hlen
  rcases rest with _ | ⟨y, rest2⟩
  · simp at hlen
  rcases rest2 with _ | ⟨z, rest3⟩
  · rw [List.all_eq_true] at hhex
    have hx := hhex x (by simp)
    have hy := hhex y (by simp)
    rw [hexPair_parse hx hy]
    rfl
  · simp only [List.length_cons] at hlen
    omega

/-- Claim C8, counterexample: on input "zz" (no valid hex pair) the codec
does not fail — it returns the one-character NUL string, while the
spec-described codec rejects the input. -/
theorem claim8_counterexample :
    hexToAscii [122, 122] = [0] ∧ hexToAsciiSpec [122, 122] = none := by
  decide

/-- Claim C8, amended: the codec strips whitespace but never fails: it
always emits one character per 2-character chunk (including a trailing odd
chunk), and only when every chunk is a valid hex pair does the output agree
with the spec's byte-pair mapping; invalid chunks are parsed leniently with
NaN rendered as the NUL character. -/
theorem claim8_hex_total (input : List Nat) :
    (hexToAscii input).length =
      ((input.filter (fun c => !(isJsWs c))).length + 1) / 2
    ∧ (validHexPairs (input.filter (fun c => !(isJsWs c))) = true →
      hexToAscii input =
        (chunks2 (input.filter (fun c => !(isJsWs c)))).map hexPairByte) := by
  constructor
  · unfold hexToAscii
    rw [List.length_map, chunks2_length]
  · exact hexToAscii_valid input

/-- Claim C8, witness: the all-valid input "4869" decodes to "Hi". -/
theorem claim8_witness : hexToAscii [52, 56, 54, 57] = [72, 105] := by
  have h := (claim8_hex_total [52, 56, 54, 57]).2 (by decide)
  rw [h]
  rfl

end AiBtcSolver
